import Mathlib

/-!
Verification of the CollabSpace AI service (completion orchestration,
response cache, fingerprinting, API keys, rate limiter) against its
natural-language specification.  The Python sources under
`src/ai-service/app` are shallowly embedded: dictionaries become
association lists, `time.time()` becomes an explicit rational (or
integer-second) parameter, the remote/local model calls become an
explicit provider environment, and the `hashlib`/`hmac` digests become
an explicit digest-function parameter (the properties proved never
depend on the digest internals).
-/

namespace CollabSpace

/-! ### Generic helpers: Python dict, `str.split`, `in`, `str`/`int` -/

/-- Lookup in an insertion-ordered association list (Python `d[k]` / `k in d`). -/
def alookup {α : Type} : List (String × α) → String → Option α
  | [], _ => none
  | (k, v) :: rest, key => if k = key then some v else alookup rest key

/-- Update in an insertion-ordered association list (Python `d[k] = v`):
overwrite in place when the key is present, append otherwise. -/
def astore {α : Type} : List (String × α) → String → α → List (String × α)
  | [], k, v => [(k, v)]
  | (k0, v0) :: rest, k, v =>
    if k0 = k then (k, v) :: rest else (k0, v0) :: astore rest k v

/-- Python `str.split(sep)` for a one-character separator, on character
lists; `acc` holds the (reversed) current segment. -/
def splitChars (sep : Char) : List Char → List Char → List (List Char)
  | acc, [] => [acc.reverse]
  | acc, c :: cs =>
    if c = sep then acc.reverse :: splitChars sep [] cs
    else splitChars sep (c :: acc) cs

/-- Python `s.split(sep)` for a one-character separator. -/
def pySplit (sep : Char) (s : String) : List String :=
  (splitChars sep [] s.data).map String.mk

/-- Substring occurrence from any starting suffix (helper for `pyIn`). -/
def containsFrom (sub : List Char) : List Char → Bool
  | [] => sub.isEmpty
  | c :: cs => sub.isPrefixOf (c :: cs) || containsFrom sub cs

/-- Python `sub in hay` on strings (substring containment). -/
def pyIn (sub hay : String) : Bool :=
  containsFrom sub.data hay.data

/-- Accumulating decimal read of a digit list (Python `int(s)` core loop). -/
def digitsToNat : List Char → Nat → Nat
  | [], acc => acc
  | c :: cs, acc => digitsToNat cs (acc * 10 + (c.toNat - '0'.toNat))

/-- Decimal digits, most significant first, with explicit fuel so the
function is structurally recursive (any fuel above `n` is enough). -/
def natDigitsAux : Nat → Nat → List Char
  | 0, _ => []
  | fuel + 1, n =>
    if n < 10 then [Nat.digitChar n]
    else natDigitsAux fuel (n / 10) ++ [Nat.digitChar (n % 10)]

/-- Decimal digits of a natural number, most significant first
(Python `str(n)` for `n : Nat`). -/
def natDigits (n : Nat) : List Char := natDigitsAux (n + 1) n

/-- Python `str(n)` for a natural number. -/
def natRepr (n : Nat) : String := String.mk (natDigits n)

/-- Python `str(i)` for an integer. -/
def intRepr (i : Int) : String :=
  if i < 0 then "-" ++ natRepr i.natAbs else natRepr i.natAbs

/-- Python `int(s)` (on the canonical integer strings used here:
an optional minus sign followed by decimal digits; anything else raises,
modelled as `none`). -/
def pyInt? (s : String) : Option Int :=
  match s.data with
  | [] => none
  | c :: cs =>
    if c = '-' then
      if !cs.isEmpty && cs.all Char.isDigit then
        some (-(digitsToNat cs 0 : Nat)) else none
    else
      if (c :: cs).all Char.isDigit then
        some ((digitsToNat (c :: cs) 0 : Nat) : Int) else none

/-! ### Configuration (`app/core/config.py`) -/

/-- `Settings.CACHE_TTL` (seconds). -/
def CACHE_TTL : Nat := 3600

/-- `Settings.CACHE_MAX_SIZE`. -/
def CACHE_MAX_SIZE : Nat := 1000

/-- `Settings.SUPPORTED_LANGUAGES`. -/
def SUPPORTED_LANGUAGES : List String :=
  ["python", "javascript", "typescript", "java", "cpp", "csharp", "go", "rust"]

/-! ### Completion service (`app/services/ai_code_completion.py`) -/

/-- `CodeCompletionRequest` dataclass. -/
structure CodeCompletionRequest where
  code : String
  language : String
  context : Option String := none
  max_tokens : Nat := 100
  temperature : ℚ := 7/10
  user_id : Option String := none
deriving DecidableEq, Repr

/-- `CodeCompletionResponse` dataclass. -/
structure CodeCompletionResponse where
  suggestions : List String
  confidence_scores : List ℚ
  reasoning : String
  model_used : String
  processing_time : ℚ
deriving DecidableEq, Repr

/-- The in-memory `self.cache` dict of the service. -/
abbrev Cache := List (String × CodeCompletionResponse)

/-- External capabilities of `AICodeCompletionService`: whether the
OpenAI client is configured, what each provider call returns for a
request, which languages have a loaded custom model, and the digest
used by `_generate_cache_key` (`hashlib.md5(...).hexdigest()`). -/
structure ProviderEnv where
  openai_available : Bool
  openai : CodeCompletionRequest → List String
  custom_models : List String
  custom : CodeCompletionRequest → List String
  md5 : String → String

/-- The string hashed by `_generate_cache_key`:
`f"{code}:{language}:{max_tokens}:{temperature}"`, with `":{context}"`
appended when `request.context` is truthy. -/
def cacheContent (req : CodeCompletionRequest) : String :=
  let content := req.code ++ ":" ++ req.language ++ ":" ++
    toString req.max_tokens ++ ":" ++ toString req.temperature
  match req.context with
  | some c => if c = "" then content else content ++ ":" ++ c
  | none => content

/-- `_generate_cache_key`: digest of `cacheContent`. -/
def generate_cache_key (md5 : String → String) (req : CodeCompletionRequest) : String :=
  md5 (cacheContent req)

/-- The static `language_patterns` table of `_get_fallback_suggestions`
(`dict.get(language, [])`). -/
def language_patterns (lang : String) : List String :=
  if lang = "python" then
    ["def ", "class ", "import ", "from ", "if __name__ == \x27__main__\x27:",
     "try:", "except ", "finally:", "with ", "async def ", "await ",
     "return ", "yield ", "raise ", "assert ", "print(", "len(", "str(",
     "int(", "list(", "dict(", "set(", "tuple("]
  else if lang = "javascript" then
    ["function ", "const ", "let ", "var ", "if (", "for (", "while (",
     "try \x7b", "catch (", "finally \x7b", "async function ", "await ",
     "return ", "throw ", "console.log(", "console.error(", "console.warn(",
     "Array(", "Object(", "String(", "Number(", "Boolean(", "Date(",
     "Math.", "JSON."]
  else if lang = "typescript" then
    ["function ", "const ", "let ", "var ", "interface ", "type ", "enum ",
     "class ", "async function ", "await ", "return ", "throw ",
     "console.log(", "Array<", "Promise<", "Map<", "Set<", "Record<",
     "Partial<", "Required<", "Pick<", "Omit<"]
  else if lang = "java" then
    ["public class ", "public static void main(", "public void ",
     "private ", "protected ", "static ", "final ", "abstract ",
     "interface ", "enum ", "try \x7b", "catch (", "finally \x7b", "if (",
     "for (", "while (", "return ", "throw ", "System.out.println(",
     "System.out.print(", "new ", "super(", "this."]
  else []

/-- `lines[-1] if lines else ""` for `lines = request.code.split('\n')`. -/
def last_line (req : CodeCompletionRequest) : String :=
  (pySplit '\n' req.code).getLastD ""

/-- `_get_fallback_suggestions`: patterns of the requested language whose
lowercase form does not occur in the lowercase final code line, capped to 5. -/
def get_fallback_suggestions (req : CodeCompletionRequest) : List String :=
  let patterns := language_patterns req.language
  ((patterns.filter fun p => !pyIn p.toLower (last_line req).toLower).take 5)

/-- `_generate_reasoning`. -/
def generate_reasoning (req : CodeCompletionRequest) (suggestions : List String) : String :=
  if suggestions.isEmpty then "No suggestions available"
  else
    let r := "Generated " ++ toString suggestions.length ++ " suggestions for " ++
      req.language ++ " code based on "
    let r := match req.context with
      | some c => if c = "" then r else r ++ "context \x27" ++ c ++ "\x27 and "
      | none => r
    r ++ "current code structure. Top suggestions focus on common patterns and best practices for " ++
      req.language ++ "."

/-- Candidates contributed by the OpenAI branch of `get_completion`
(`if self.openai_client: suggestions.extend(...)`). -/
def remoteCands (env : ProviderEnv) (req : CodeCompletionRequest) : List String :=
  if env.openai_available then env.openai req else []

/-- Candidates contributed by the custom-model branch of `get_completion`
(`if request.language in self.custom_models: suggestions.extend(...)`). -/
def localCands (env : ProviderEnv) (req : CodeCompletionRequest) : List String :=
  if env.custom_models.contains req.language then env.custom req else []

/-- The cache-miss body of `get_completion`: provider fan-out, fallback,
truncation to 5, reasoning, `model_used`, `processing_time`. -/
def compute_response (env : ProviderEnv) (tStart tEnd : ℚ)
    (req : CodeCompletionRequest) : CodeCompletionResponse :=
  let s1 := remoteCands env req ++ localCands env req
  let c1 := List.replicate (remoteCands env req).length (9/10 : ℚ) ++
    List.replicate (localCands env req).length (7/10 : ℚ)
  let model1 := if env.custom_models.contains req.language then "custom" else "openai"
  let fb := if s1.isEmpty then get_fallback_suggestions req else []
  let s2 := s1 ++ fb
  let c2 := c1 ++ List.replicate fb.length (1/2 : ℚ)
  let model2 := if s1.isEmpty then "rule-based" else model1
  { suggestions := s2.take 5
    confidence_scores := c2.take 5
    reasoning := generate_reasoning req s2
    model_used := model2
    processing_time := tEnd - tStart }

/-- `get_completion`: cached result when the fingerprint is present,
otherwise compute, store, and return. `tStart`/`tEnd` are the two
`time.time()` samples. -/
def get_completion (env : ProviderEnv) (tStart tEnd : ℚ)
    (req : CodeCompletionRequest) (cache : Cache) :
    CodeCompletionResponse × Cache :=
  let key := generate_cache_key env.md5 req
  match alookup cache key with
  | some r => (r, cache)
  | none =>
    let r := compute_response env tStart tEnd req
    (r, astore cache key r)

/-! ### Security manager (`app/core/security.py`) -/

/-- Result of `verify_api_key`: the returned claims, or the internal
error reason carried by the raised exception. -/
inductive VerifyResult where
  | ok (user_id timestamp : String)
  | err (msg : String)
deriving DecidableEq, Repr

/-- `SecurityManager.generate_api_key`: `f"{user_id}.{timestamp}.{signature}"`
with `timestamp = str(int(time.time()))` and
`signature = hmac.new(secret, f"{user_id}:{timestamp}", sha256).hexdigest()`.
`hm` is the HMAC-SHA256 hex digest as a function of secret and message;
`now` is the integer-truncated clock. -/
def generate_api_key (hm : String → String → String) (secret user_id : String)
    (now : Int) : String :=
  let timestamp := intRepr now
  let message := user_id ++ ":" ++ timestamp
  let signature := hm secret message
  user_id ++ "." ++ timestamp ++ "." ++ signature

/-- `SecurityManager.verify_api_key`: split on `"."` into exactly three
parts, recompute and compare the HMAC, reject ages above 86400 seconds. -/
def verify_api_key (hm : String → String → String) (secret api_key : String)
    (now : Int) : VerifyResult :=
  match pySplit '.' api_key with
  | [user_id, timestamp, signature] =>
    let message := user_id ++ ":" ++ timestamp
    let expected := hm secret message
    if signature = expected then
      match pyInt? timestamp with
      | some ts =>
        if now - ts > 86400 then VerifyResult.err "API key expired"
        else VerifyResult.ok user_id timestamp
      | none => VerifyResult.err "invalid timestamp"
    else VerifyResult.err "Invalid signature"
  | _ => VerifyResult.err "Invalid API key format"

/-! ### Rate limiter (`app/core/security.py`, `RateLimiter`) -/

/-- The `RateLimiter.requests` dict: key → recorded request times. -/
abbrev RateState := List (String × List ℚ)

/-- The pruning step of `is_allowed`:
`[t for t in times if now - t < window]`. -/
def prune_window (now window : ℚ) (times : List ℚ) : List ℚ :=
  times.filter fun t => now - t < window

/-- `RateLimiter.is_allowed`: prune the window of the key, store the pruned
list, reject when `limit` is reached, otherwise record `now` and admit. -/
def is_allowed (st : RateState) (now : ℚ) (key : String) (limit : Nat)
    (window : ℚ) : Bool × RateState :=
  let times := (alookup st key).getD []
  let pruned := prune_window now window times
  if limit ≤ pruned.length then (false, astore st key pruned)
  else (true, astore st key (pruned ++ [now]))

/-- The rate limiter exactly as the specification sentence words it
(for comparison with `is_allowed`): discard only the timestamps strictly
older than `window` seconds, i.e. keep `now - t ≤ window`. -/
def is_allowed_claim (st : RateState) (now : ℚ) (key : String) (limit : Nat)
    (window : ℚ) : Bool × RateState :=
  let times := (alookup st key).getD []
  let pruned := times.filter fun t => ¬(now - t > window)
  if limit ≤ pruned.length then (false, astore st key pruned)
  else (true, astore st key (pruned ++ [now]))

/-! ### Concurrency model for `get_completion`

`get_completion` is an `async` coroutine on a single-threaded event
loop.  Its only suspension points are the awaited provider calls, which
sit strictly between the cache lookup and the cache store.  A caller is
therefore modelled by two atomic phases: `check` runs from entry through
the cache lookup and (on a miss) starts the provider chain; `finish`
resumes a caller whose chain is in flight, stores the computed response
and completes.  All callers share one request, so they are
interchangeable and the state only needs counts. -/

/-- One scheduling step of a caller: run to the first await, or resume
after the provider chain. -/
inductive SfAction where
  | check
  | finish
deriving DecidableEq, Repr

/-- Event-loop state for `n` concurrent `get_completion` calls of one
request: callers not yet at the cache lookup, callers whose provider
chain is in flight, callers finished via a cache hit, callers finished
via their own computation, the shared cache, and the number of full
provider-chain executions started. -/
structure SfState where
  unchecked : Nat
  computing : Nat
  doneHit : Nat
  doneComputed : Nat
  cache : Cache
  execs : Nat
deriving DecidableEq, Repr

/-- Interleaved step of the event loop. -/
def sfStep (env : ProviderEnv) (tStart tEnd : ℚ) (req : CodeCompletionRequest)
    (s : SfState) : SfAction → SfState
  | SfAction.check =>
    match s.unchecked with
    | 0 => s
    | m + 1 =>
      match alookup s.cache (generate_cache_key env.md5 req) with
      | some _ => { s with unchecked := m, doneHit := s.doneHit + 1 }
      | none =>
        { s with unchecked := m, computing := s.computing + 1,
                 execs := s.execs + 1 }
  | SfAction.finish =>
    match s.computing with
    | 0 => s
    | m + 1 =>
      { s with computing := m, doneComputed := s.doneComputed + 1,
               cache := astore s.cache (generate_cache_key env.md5 req)
                 (compute_response env tStart tEnd req) }

/-- Run `n` concurrent callers of one request against an initially empty
cache under a schedule. -/
def sfRun (env : ProviderEnv) (tStart tEnd : ℚ) (req : CodeCompletionRequest)
    (n : Nat) (sched : List SfAction) : SfState :=
  sched.foldl (sfStep env tStart tEnd req) ⟨n, 0, 0, 0, [], 0⟩

/-! ### Concrete instances used to exercise the model -/

/-- Repeated `store` of one value under a list of fingerprints
(`self.cache[cache_key] = response` in a loop). -/
def insertAll {α : Type} (ks : List String) (v : α)
    (c : List (String × α)) : List (String × α) :=
  ks.foldl (fun acc k => astore acc k v) c

/-- The `i`-th fingerprint of a distinct family: `i` copies of `a`. -/
def aKey (i : Nat) : String := String.mk (List.replicate i 'a')

/-- Provider environment with no OpenAI client and no custom models. -/
def envNone : ProviderEnv :=
  { openai_available := false, openai := fun _ => [], custom_models := [],
    custom := fun _ => [], md5 := fun s => s }

/-- Provider environment where OpenAI is configured and yields a
candidate, and a custom model is loaded for python and also yields one. -/
def envBoth : ProviderEnv :=
  { openai_available := true, openai := fun _ => ["remote candidate"],
    custom_models := ["python"], custom := fun _ => ["local candidate"],
    md5 := fun s => s }

/-- A python completion request. -/
def reqPy : CodeCompletionRequest := { code := "x = 1", language := "python" }

/-- A go completion request (supported language, no pattern table). -/
def reqGo : CodeCompletionRequest := { code := "x := 1", language := "go" }

/-- Identical request fields, caller identity `alice`. -/
def reqAlice : CodeCompletionRequest :=
  { code := "x = 1", language := "python", user_id := some "alice" }

/-- Identical request fields, caller identity `bob`. -/
def reqBob : CodeCompletionRequest :=
  { code := "x = 1", language := "python", user_id := some "bob" }

/-- A concrete stand-in digest function (constant, dot-free output). -/
def hmSig : String → String → String := fun _ _ => "sig"

/-- A fixed response value for exercising the cache store. -/
def respEmpty : CodeCompletionResponse :=
  { suggestions := [], confidence_scores := [],
    reasoning := "No suggestions available", model_used := "rule-based",
    processing_time := 0 }

/-- A sequence of `is_allowed` calls on one key at the given times,
threading the limiter state. -/
def rate_calls (key : String) (limit : Nat) (window : ℚ) :
    RateState → List ℚ → List Bool
  | _, [] => []
  | st, t :: ts =>
    let r := is_allowed st t key limit window
    r.1 :: rate_calls key limit window r.2 ts

/-! ### Association-list lemmas -/

theorem alookup_astore_self {α : Type} (c : List (String × α)) (k : String) (v : α) :
    alookup (astore c k v) k = some v := by
  induction c with
  | nil => simp [astore, alookup]
  | cons hd tl ih =>
    obtain ⟨k0, v0⟩ := hd
    by_cases h : k0 = k
    · simp [astore, h, alookup]
    · simp [astore, h, alookup, ih]

theorem alookup_astore_other {α : Type} (c : List (String × α)) (k k' : String)
    (v : α) (h : k ≠ k') : alookup (astore c k v) k' = alookup c k' := by
  induction c with
  | nil => simp [astore, alookup, h]
  | cons hd tl ih =>
    obtain ⟨k0, v0⟩ := hd
    by_cases h0 : k0 = k
    · simp [astore, h0, alookup, h]
    · by_cases h1 : k0 = k'
      · simp [astore, h0, alookup, h1, Ne.symm h]
      · simp [astore, h0, alookup, h1, ih]

theorem astore_length_of_none {α : Type} (c : List (String × α)) (k : String)
    (v : α) (h : alookup c k = none) :
    (astore c k v).length = c.length + 1 := by
  induction c with
  | nil => simp [astore]
  | cons hd tl ih =>
    obtain ⟨k0, v0⟩ := hd
    by_cases h0 : k0 = k
    · simp [alookup, h0] at h
    · simp [alookup, h0] at h
      simp [astore, h0, ih h]

theorem astore_astore_same {α : Type} (c : List (String × α)) (k : String) (v : α) :
    astore (astore c k v) k v = astore c k v := by
  induction c with
  | nil => simp [astore]
  | cons hd tl ih =>
    obtain ⟨k0, v0⟩ := hd
    by_cases h0 : k0 = k
    · simp [astore, h0]
    · simp [astore, h0, ih]

theorem insertAll_cons {α : Type} (k0 : String) (ks : List String) (v : α)
    (c : List (String × α)) :
    insertAll (k0 :: ks) v c = insertAll ks v (astore c k0 v) := rfl

theorem insertAll_lookup_of_not_mem {α : Type} (v : α) (ks : List String)
    (c : List (String × α)) (k : String) (h : k ∉ ks) :
    alookup (insertAll ks v c) k = alookup c k := by
  induction ks generalizing c with
  | nil => rfl
  | cons k0 ks ih =>
    have h0 : k0 ≠ k := fun he => h (he ▸ List.mem_cons_self _ _)
    have h1 : k ∉ ks := fun hm => h (List.mem_cons_of_mem _ hm)
    rw [insertAll_cons, ih _ h1, alookup_astore_other _ _ _ _ h0]

theorem insertAll_length {α : Type} (v : α) (ks : List String)
    (c : List (String × α)) (hnd : ks.Nodup)
    (hnone : ∀ k ∈ ks, alookup c k = none) :
    (insertAll ks v c).length = c.length + ks.length := by
  induction ks generalizing c with
  | nil => rfl
  | cons k0 ks ih =>
    have hnone2 : ∀ k ∈ ks, alookup (astore c k0 v) k = none := by
      intro k hk
      rw [alookup_astore_other]
      · exact hnone k (List.mem_cons_of_mem _ hk)
      · intro he
        exact (List.nodup_cons.mp hnd).1 (he ▸ hk)
    rw [insertAll_cons, ih _ hnd.of_cons hnone2,
      astore_length_of_none c k0 v (hnone k0 (List.mem_cons_self _ _))]
    simp [Nat.add_assoc, Nat.add_comm 1]

theorem insertAll_lookup_self {α : Type} (v : α) (ks : List String)
    (c : List (String × α)) (hnd : ks.Nodup)
    (hnone : ∀ k ∈ ks, alookup c k = none) (k : String) (hk : k ∈ ks) :
    alookup (insertAll ks v c) k = some v := by
  induction ks generalizing c with
  | nil => cases hk
  | cons k0 ks ih =>
    rw [insertAll_cons]
    rcases List.mem_cons.mp hk with rfl | hk2
    · rw [insertAll_lookup_of_not_mem _ _ _ _ (List.nodup_cons.mp hnd).1]
      exact alookup_astore_self c k v
    · refine ih _ hnd.of_cons ?_ hk2
      intro k2 hk2m
      rw [alookup_astore_other]
      · exact hnone k2 (List.mem_cons_of_mem _ hk2m)
      · intro he
        exact (List.nodup_cons.mp hnd).1 (he ▸ hk2m)

/-! ### Digit-string and split lemmas -/

theorem digitsToNat_append (xs ys : List Char) (acc : Nat) :
    digitsToNat (xs ++ ys) acc = digitsToNat ys (digitsToNat xs acc) := by
  induction xs generalizing acc with
  | nil => rfl
  | cons c cs ih => simp [digitsToNat, ih]

theorem digitChar_isDigit (m : Nat) (h : m < 10) :
    (Nat.digitChar m).isDigit = true := by
  interval_cases m <;> decide

theorem digitChar_toNat (m : Nat) (h : m < 10) :
    (Nat.digitChar m).toNat - Char.toNat '0' = m := by
  interval_cases m <;> decide

theorem natDigitsAux_ne_nil (fuel n : Nat) (h : n < fuel) :
    natDigitsAux fuel n ≠ [] := by
  cases fuel with
  | zero => omega
  | succ f =>
    by_cases h10 : n < 10 <;> simp [natDigitsAux, h10]

theorem natDigitsAux_all_digits (fuel : Nat) :
    ∀ n, n < fuel → ∀ c ∈ natDigitsAux fuel n, c.isDigit = true := by
  induction fuel with
  | zero => intro n h; omega
  | succ f ih =>
    intro n h c hc
    by_cases h10 : n < 10
    · simp [natDigitsAux, h10] at hc
      exact hc ▸ digitChar_isDigit n h10
    · simp only [natDigitsAux, h10, if_false, List.mem_append,
        List.mem_singleton, if_neg] at hc
      have hdiv : n / 10 < f := by
        have := Nat.div_lt_self (show 0 < n by omega) (show 1 < 10 by omega)
        omega
      rcases hc with hc | hc
      · exact ih (n / 10) hdiv c hc
      · exact hc ▸ digitChar_isDigit (n % 10) (Nat.mod_lt _ (by omega))

theorem digitsToNat_natDigitsAux (fuel : Nat) :
    ∀ n, n < fuel → digitsToNat (natDigitsAux fuel n) 0 = n := by
  induction fuel with
  | zero => intro n h; omega
  | succ f ih =>
    intro n h
    by_cases h10 : n < 10
    · calc digitsToNat (natDigitsAux (f + 1) n) 0
          = (Nat.digitChar n).toNat - Char.toNat '0' := by
            simp [natDigitsAux, h10, digitsToNat]
        _ = n := digitChar_toNat n h10
    · have hdiv : n / 10 < f := by
        have := Nat.div_lt_self (show 0 < n by omega) (show 1 < 10 by omega)
        omega
      have hstep : natDigitsAux (f + 1) n =
          natDigitsAux f (n / 10) ++ [Nat.digitChar (n % 10)] := by
        simp [natDigitsAux, h10]
      rw [hstep, digitsToNat_append, ih (n / 10) hdiv]
      have hlast : digitsToNat [Nat.digitChar (n % 10)] (n / 10) =
          n / 10 * 10 + ((Nat.digitChar (n % 10)).toNat - Char.toNat '0') := by
        simp [digitsToNat]
      rw [hlast, digitChar_toNat (n % 10) (Nat.mod_lt _ (by omega))]
      omega

theorem natDigits_ne_nil (n : Nat) : natDigits n ≠ [] :=
  natDigitsAux_ne_nil _ _ (Nat.lt_succ_self n)

theorem natDigits_all_digits (n : Nat) :
    ∀ c ∈ natDigits n, c.isDigit = true :=
  natDigitsAux_all_digits _ n (Nat.lt_succ_self n)

theorem digitsToNat_natDigits (n : Nat) : digitsToNat (natDigits n) 0 = n :=
  digitsToNat_natDigitsAux _ n (Nat.lt_succ_self n)

theorem pyInt?_natRepr (n : Nat) : pyInt? (natRepr n) = some (n : Int) := by
  have hd : (natRepr n).data = natDigits n := rfl
  rcases hnd : natDigits n with _ | ⟨c, cs⟩
  · exact absurd hnd (natDigits_ne_nil n)
  · have hcmem : c ∈ natDigits n := by
      rw [hnd]; exact List.mem_cons_self _ _
    have hcdig := natDigits_all_digits n c hcmem
    have hcne : ¬(c = '-') := by
      intro he
      rw [he] at hcdig
      exact absurd hcdig (by decide)
    have hall : (c :: cs).all Char.isDigit = true := by
      rw [← hnd]
      exact List.all_eq_true.mpr (natDigits_all_digits n)
    unfold pyInt?
    rw [hd, hnd]
    simp only [hcne, if_neg, if_false, hall, if_true, Option.some.injEq]
    rw [← hnd, digitsToNat_natDigits]

theorem pyInt?_intRepr (i : Int) : pyInt? (intRepr i) = some i := by
  by_cases hi : i < 0
  · have hd : (intRepr i).data = '-' :: natDigits i.natAbs := by
      unfold intRepr natRepr
      rw [if_pos hi]
      rfl
    have hne := natDigits_ne_nil i.natAbs
    have hempty : (natDigits i.natAbs).isEmpty = false := by
      rcases hnd : natDigits i.natAbs with _ | ⟨c, cs⟩
      · exact absurd hnd hne
      · rfl
    have hall : (natDigits i.natAbs).all Char.isDigit = true :=
      List.all_eq_true.mpr (natDigits_all_digits i.natAbs)
    unfold pyInt?
    rw [hd]
    simp only [if_pos rfl, hempty, hall, Bool.not_false, Bool.and_self,
      if_true, Option.some.injEq]
    rw [digitsToNat_natDigits]
    omega
  · have hd : intRepr i = natRepr i.natAbs := by
      unfold intRepr
      rw [if_neg hi]
    rw [hd, pyInt?_natRepr]
    congr 1
    omega

theorem dot_not_mem_natDigits (n : Nat) : ('.' : Char) ∉ natDigits n := by
  intro hm
  exact absurd (natDigits_all_digits n _ hm) (by decide)

theorem dot_not_mem_intRepr (i : Int) : ('.' : Char) ∉ (intRepr i).data := by
  by_cases hi : i < 0
  · have hd : (intRepr i).data = '-' :: natDigits i.natAbs := by
      unfold intRepr natRepr
      rw [if_pos hi]
      rfl
    rw [hd]
    intro hm
    rcases List.mem_cons.mp hm with he | hmem
    · exact absurd he (by decide)
    · exact dot_not_mem_natDigits _ hmem
  · have hd : (intRepr i).data = natDigits i.natAbs := by
      unfold intRepr natRepr
      rw [if_neg hi]
    rw [hd]
    exact dot_not_mem_natDigits _

theorem splitChars_no_sep (sep : Char) (a : List Char) :
    ∀ acc, sep ∉ a → splitChars sep acc a = [acc.reverse ++ a] := by
  induction a with
  | nil => intro acc h; simp [splitChars]
  | cons c cs ih =>
    intro acc h
    have hc : ¬(c = sep) := fun he => h (he ▸ List.mem_cons_self c cs)
    rw [splitChars, if_neg hc, ih (c :: acc) (fun hm => h (List.mem_cons_of_mem _ hm))]
    simp

theorem splitChars_sep (sep : Char) (a rest : List Char) :
    ∀ acc, sep ∉ a → splitChars sep acc (a ++ sep :: rest) =
      (acc.reverse ++ a) :: splitChars sep [] rest := by
  induction a with
  | nil => intro acc h; simp [splitChars]
  | cons c cs ih =>
    intro acc h
    have hc : ¬(c = sep) := fun he => h (he ▸ List.mem_cons_self c cs)
    rw [List.cons_append, splitChars, if_neg hc,
      ih (c :: acc) (fun hm => h (List.mem_cons_of_mem _ hm))]
    simp

theorem pySplit_three (u ts sig : String)
    (hu : ('.' : Char) ∉ u.data) (hts : ('.' : Char) ∉ ts.data)
    (hsig : ('.' : Char) ∉ sig.data) :
    pySplit '.' (u ++ "." ++ ts ++ "." ++ sig) = [u, ts, sig] := by
  have hd : (u ++ "." ++ ts ++ "." ++ sig).data =
      u.data ++ '.' :: (ts.data ++ '.' :: sig.data) := by
    simp [String.data_append]
  unfold pySplit
  rw [hd, splitChars_sep '.' u.data _ [] hu,
    splitChars_sep '.' ts.data _ [] hts,
    splitChars_no_sep '.' sig.data [] hsig]
  simp

/-! ### Scheduling lemmas for the concurrency model -/

theorem sfRun_check_phase (env : ProviderEnv) (tS tE : ℚ)
    (req : CodeCompletionRequest) :
    ∀ (k u c dh dc e : Nat), k ≤ u →
      (List.replicate k SfAction.check).foldl (sfStep env tS tE req)
        ⟨u, c, dh, dc, [], e⟩ = ⟨u - k, c + k, dh, dc, [], e + k⟩ := by
  intro k
  induction k with
  | zero => intro u c dh dc e h; simp
  | succ k ih =>
    intro u c dh dc e h
    cases u with
    | zero => omega
    | succ m =>
      rw [List.replicate_succ, List.foldl_cons]
      have hstep : sfStep env tS tE req ⟨m + 1, c, dh, dc, [], e⟩ SfAction.check =
          ⟨m, c + 1, dh, dc, [], e + 1⟩ := rfl
      rw [hstep, ih m (c + 1) dh dc (e + 1) (by omega)]
      simp only [SfState.mk.injEq, and_true, true_and]
      omega

theorem sfRun_finish_phase (env : ProviderEnv) (tS tE : ℚ)
    (req : CodeCompletionRequest) :
    ∀ (k c dh dc e : Nat) (cache : Cache), k ≤ c →
      (List.replicate k SfAction.finish).foldl (sfStep env tS tE req)
        ⟨0, c, dh, dc, cache, e⟩ =
        ⟨0, c - k, dh, dc + k,
         (if k = 0 then cache else
          astore cache (generate_cache_key env.md5 req)
            (compute_response env tS tE req)), e⟩ := by
  intro k
  induction k with
  | zero => intro c dh dc e cache h; simp
  | succ k ih =>
    intro c dh dc e cache h
    cases c with
    | zero => omega
    | succ m =>
      rw [List.replicate_succ, List.foldl_cons]
      have hstep : sfStep env tS tE req ⟨0, m + 1, dh, dc, cache, e⟩ SfAction.finish =
          ⟨0, m, dh, dc + 1,
           astore cache (generate_cache_key env.md5 req)
             (compute_response env tS tE req), e⟩ := rfl
      rw [hstep, ih m dh (dc + 1) e _ (by omega)]
      by_cases hk : k = 0
      · subst hk
        simp only [SfState.mk.injEq, if_true, if_neg (Nat.succ_ne_zero 0),
          and_true, true_and, if_pos rfl]
        omega
      · simp only [SfState.mk.injEq, if_neg hk, if_neg (Nat.succ_ne_zero k),
          astore_astore_same, and_true, true_and]
        omega

/-! ### Claim theorems -/

/-- C7: the cache fingerprint is determined by exactly the code text,
language, max-tokens, temperature and (truthy) context: two requests
identical in those fields receive the same fingerprint under any digest
function, regardless of their `user_id`. -/
theorem fingerprint_ignores_identity (md5 : String → String)
    (r1 r2 : CodeCompletionRequest)
    (hcode : r1.code = r2.code) (hlang : r1.language = r2.language)
    (htok : r1.max_tokens = r2.max_tokens)
    (htemp : r1.temperature = r2.temperature)
    (hctx : r1.context = r2.context) :
    generate_cache_key md5 r1 = generate_cache_key md5 r2 := by
  unfold generate_cache_key cacheContent
  rw [hcode, hlang, htok, htemp, hctx]

/-- C7 witness: requests from `alice` and `bob` that differ only in
`user_id` share the fingerprint. -/
theorem fingerprint_ignores_identity_w :
    reqAlice.user_id ≠ reqBob.user_id ∧
    generate_cache_key (fun s => s) reqAlice =
      generate_cache_key (fun s => s) reqBob :=
  ⟨by decide,
   fingerprint_ignores_identity (fun s => s) reqAlice reqBob rfl rfl rfl rfl rfl⟩

/-- C2: the code has no TTL handling — a `get_completion` call issued
more than `CACHE_TTL` seconds after the result was cached still returns
the stored result unchanged instead of recomputing it. -/
theorem cache_hit_after_ttl (env : ProviderEnv) (t1a t1b t2a t2b : ℚ)
    (req : CodeCompletionRequest) (h : t2a - t1a > (CACHE_TTL : ℚ)) :
    get_completion env t2a t2b req (get_completion env t1a t1b req []).2 =
      ((get_completion env t1a t1b req []).1,
       (get_completion env t1a t1b req []).2) := by
  simp [get_completion, alookup, astore]

/-- C2 witness: a second call 3601 seconds later still hits the cache. -/
theorem cache_hit_after_ttl_w :
    get_completion envNone 3601 3601 reqPy (get_completion envNone 0 0 reqPy []).2 =
      ((get_completion envNone 0 0 reqPy []).1,
       (get_completion envNone 0 0 reqPy []).2) :=
  cache_hit_after_ttl envNone 0 0 3601 3601 reqPy (by norm_num [CACHE_TTL])

/-- C1 counterexample: OpenAI yields a candidate, a loaded python model
also runs, and `model_used` is `"custom"`, not the remote-LLM label. -/
theorem model_used_not_remote_cex :
    remoteCands envBoth reqPy ≠ [] ∧
    (get_completion envBoth 0 0 reqPy []).1.model_used = "custom" ∧
    ("custom" : String) ≠ "openai" :=
  ⟨by decide, by decide, by decide⟩

/-- C1 (amended): on a cache miss, `model_used` is `"rule-based"` when
remote and local providers produced no candidates; otherwise it is
`"custom"` whenever a custom model exists for the requested language —
even when the remote provider yielded candidates — and `"openai"` only
when no custom model exists. -/
theorem model_used_label (env : ProviderEnv) (tS tE : ℚ)
    (req : CodeCompletionRequest) (cache : Cache)
    (h : alookup cache (generate_cache_key env.md5 req) = none) :
    (get_completion env tS tE req cache).1.model_used =
      (if remoteCands env req ++ localCands env req = [] then "rule-based"
       else if env.custom_models.contains req.language then "custom"
       else "openai") := by
  simp only [get_completion]
  rw [h]
  by_cases he : remoteCands env req ++ localCands env req = []
  · simp [compute_response, he]
  · simp [compute_response, he]

/-- C1 (amended) witness at the concrete two-provider environment. -/
theorem model_used_label_w :
    (get_completion envBoth 0 0 reqPy []).1.model_used =
      (if remoteCands envBoth reqPy ++ localCands envBoth reqPy = [] then "rule-based"
       else if envBoth.custom_models.contains reqPy.language then "custom"
       else "openai") :=
  model_used_label envBoth 0 0 reqPy [] rfl

/-- C3: the store never evicts — after inserting `CACHE_MAX_SIZE + 1`
distinct fingerprints the cache holds all `CACHE_MAX_SIZE + 1` entries
and the earliest fingerprint is still present. -/
theorem cache_never_evicts :
    (insertAll ((List.range (CACHE_MAX_SIZE + 1)).map aKey) respEmpty []).length =
      CACHE_MAX_SIZE + 1 ∧
    alookup (insertAll ((List.range (CACHE_MAX_SIZE + 1)).map aKey) respEmpty [])
      (aKey 0) = some respEmpty := by
  have hinj : Function.Injective aKey := by
    intro i j hij
    have hd : List.replicate i 'a' = List.replicate j 'a' :=
      congrArg String.data hij
    have := congrArg List.length hd
    simpa using this
  have hnd : ((List.range (CACHE_MAX_SIZE + 1)).map aKey).Nodup :=
    (List.nodup_range _).map hinj
  have hnone : ∀ k ∈ (List.range (CACHE_MAX_SIZE + 1)).map aKey,
      alookup ([] : Cache) k = none := fun k _ => rfl
  constructor
  · rw [insertAll_length respEmpty _ _ hnd hnone]
    simp
  · exact insertAll_lookup_self respEmpty _ _ hnd hnone (aKey 0)
      (List.mem_map_of_mem aKey (List.mem_range.mpr (by omega)))

/-- C4 counterexample: a timestamp aged exactly `window` seconds is
discarded by the code (it keeps only `now - t < window`), while the
pruning rule of the claim (discard only strictly older than `window`) keeps
it; at `limit = 1` the code admits the call that the claimed description
rejects. -/
theorem rate_prune_boundary_cex :
    (is_allowed [("k", [0])] 60 "k" 1 60).1 = true ∧
    (is_allowed_claim [("k", [0])] 60 "k" 1 60).1 = false :=
  ⟨by norm_num [is_allowed, prune_window, alookup],
   by norm_num [is_allowed_claim, alookup]⟩

/-- C4 (amended): `is_allowed` discards the timestamps of the key of age at
least `window` (keeping `now - t < window`), returns `true` iff the
remaining count is below `limit`, records `now` exactly on admission and
stores only the pruned list on rejection; with `limit = 3`,
`window = 60`, four immediate calls yield `true, true, true, false` and
a call more than `window` later is admitted again. -/
theorem rate_limiter_behavior :
    (∀ (st : RateState) (now : ℚ) (key : String) (limit : Nat) (window : ℚ),
      (is_allowed st now key limit window).1 =
        decide ((prune_window now window ((alookup st key).getD [])).length < limit) ∧
      (is_allowed st now key limit window).2 =
        astore st key ((prune_window now window ((alookup st key).getD [])) ++
          (if (prune_window now window ((alookup st key).getD [])).length < limit
           then [now] else []))) ∧
    rate_calls "k" 3 60 [] [0, 0, 0, 0, 61] = [true, true, true, false, true] := by
  constructor
  · intro st now key limit window
    unfold is_allowed
    by_cases h : limit ≤ (prune_window now window ((alookup st key).getD [])).length
    · simp [h, Nat.not_lt.mpr h]
    · have h2 := Nat.not_le.mp h
      simp [h, h2]
  · norm_num [rate_calls, is_allowed, prune_window, alookup, astore]

/-- C8 counterexample: two concurrent callers interleaved
check–check–finish–finish both execute the full provider chain: two
executions, refuting the at-most-one single-flight guarantee. -/
theorem single_flight_cex :
    (sfRun envBoth 0 0 reqPy 2 [SfAction.check, SfAction.check]).execs = 2 ∧
    ¬((sfRun envBoth 0 0 reqPy 2 [SfAction.check, SfAction.check]).execs ≤ 1) :=
  ⟨by decide, by decide⟩

/-- C8 (amended): the code provides no single-flight: when all `n`
concurrent callers of one request pass the cache check before any of
them stores, every caller runs the full provider chain — `n` executions
— each caller completes with its own computed result, and the cache ends
holding the last stored copy of that result. -/
theorem no_single_flight (env : ProviderEnv) (tS tE : ℚ)
    (req : CodeCompletionRequest) (n : Nat) :
    sfRun env tS tE req n
        (List.replicate n SfAction.check ++ List.replicate n SfAction.finish) =
      ⟨0, 0, 0, n,
       (if n = 0 then [] else
        [(generate_cache_key env.md5 req, compute_response env tS tE req)]),
       n⟩ := by
  unfold sfRun
  rw [List.foldl_append,
    sfRun_check_phase env tS tE req n n 0 0 0 0 (le_refl n)]
  simp only [Nat.sub_self, Nat.zero_add]
  rw [sfRun_finish_phase env tS tE req n n 0 0 n [] (le_refl n)]
  simp [astore, Nat.sub_self]

/-- C5: the rule-based provider is the source exactly when remote and
local produced nothing; then every suggestion comes from the per-language
static pattern table, none occurs case-insensitively in the final code
line, at most 5 are returned and every confidence score is 0.5; when
prior candidates exist the response is exactly their first five and is
not labelled rule-based. -/
theorem fallback_policy (env : ProviderEnv) (tS tE : ℚ)
    (req : CodeCompletionRequest) :
    ((get_completion env tS tE req []).1.model_used = "rule-based" ↔
      remoteCands env req ++ localCands env req = []) ∧
    (remoteCands env req ++ localCands env req = [] →
      (get_completion env tS tE req []).1.suggestions =
        get_fallback_suggestions req ∧
      (∀ s ∈ (get_completion env tS tE req []).1.suggestions,
        s ∈ language_patterns req.language ∧
        pyIn s.toLower (last_line req).toLower = false) ∧
      (get_completion env tS tE req []).1.suggestions.length ≤ 5 ∧
      (∀ q ∈ (get_completion env tS tE req []).1.confidence_scores, q = 1/2)) ∧
    (remoteCands env req ++ localCands env req ≠ [] →
      (get_completion env tS tE req []).1.suggestions =
        (remoteCands env req ++ localCands env req).take 5) := by
  have hr : (get_completion env tS tE req []).1 = compute_response env tS tE req := rfl
  rw [hr]
  by_cases he : remoteCands env req ++ localCands env req = []
  · obtain ⟨he1, he2⟩ := List.append_eq_nil.mp he
    refine ⟨by simp [compute_response, he1, he2], fun _ => ⟨?_, ?_, ?_, ?_⟩,
      fun hne => absurd he hne⟩
    · simp [compute_response, he1, he2, get_fallback_suggestions, List.take_take]
    · intro s hs
      simp only [compute_response, he1, he2] at hs
      simp only [List.nil_append, List.isEmpty_nil, if_true, if_pos rfl] at hs
      have hs2 := List.take_subset _ _ hs
      have hs3 := List.take_subset _ _ (by simpa [get_fallback_suggestions] using hs2)
      have := List.mem_filter.mp hs3
      exact ⟨this.1, by simpa using this.2⟩
    · simp [compute_response, he1, he2]
    · intro q hq
      simp only [compute_response, he1, he2] at hq
      simp only [List.nil_append, List.isEmpty_nil, if_true, if_pos rfl,
        List.replicate, List.length_nil, List.nil_append] at hq
      have hq2 := List.take_subset _ _ hq
      exact List.eq_of_mem_replicate hq2
  · rcases hs : remoteCands env req ++ localCands env req with _ | ⟨a, rest⟩
    · exact absurd hs he
    · refine ⟨⟨fun hmu => ?_, fun h0 => absurd h0 (List.cons_ne_nil a rest)⟩,
        fun h0 => absurd h0 (List.cons_ne_nil a rest), fun _ => ?_⟩
      · exfalso
        by_cases hc : req.language ∈ env.custom_models <;>
          simp [compute_response, hs, hc] at hmu
      · simp [compute_response, hs]

/-- C5 witness: with no providers the python fallback suggestions are
returned; with both providers their candidates are returned. -/
theorem fallback_policy_w :
    (get_completion envNone 0 0 reqPy []).1.suggestions =
      get_fallback_suggestions reqPy ∧
    (get_completion envBoth 0 0 reqPy []).1.suggestions =
      (remoteCands envBoth reqPy ++ localCands envBoth reqPy).take 5 :=
  ⟨((fallback_policy envNone 0 0 reqPy).2.1 rfl).1,
   (fallback_policy envBoth 0 0 reqPy).2.2 (by decide)⟩

/-- C9: for a supported language outside the pattern table (go, rust,
cpp, csharp), when remote and local produce nothing, the response has no
suggestions, no confidence scores, reasoning `"No suggestions
available"` and `model_used = "rule-based"`. -/
theorem other_supported_language_empty (env : ProviderEnv) (tS tE : ℚ)
    (req : CodeCompletionRequest)
    (hsup : req.language ∈ SUPPORTED_LANGUAGES)
    (hnot : req.language ∉ (["python", "javascript", "typescript", "java"] : List String))
    (hremote : remoteCands env req = []) (hlocal : localCands env req = []) :
    (get_completion env tS tE req []).1 =
      { suggestions := [], confidence_scores := [],
        reasoning := "No suggestions available", model_used := "rule-based",
        processing_time := tE - tS } := by
  have hp : language_patterns req.language = [] := by
    simp only [List.mem_cons, List.not_mem_nil, or_false, not_or] at hnot
    obtain ⟨h1, h2, h3, h4⟩ := hnot
    simp [language_patterns, h1, h2, h3, h4]
  have hr : (get_completion env tS tE req []).1 = compute_response env tS tE req := rfl
  rw [hr]
  simp [compute_response, hremote, hlocal, get_fallback_suggestions, hp,
    generate_reasoning]

/-- C9 witness: a `go` request with no providers produces the empty
rule-based response. -/
theorem other_supported_language_empty_w :
    (get_completion envNone 0 0 reqGo []).1 =
      { suggestions := [], confidence_scores := [],
        reasoning := "No suggestions available", model_used := "rule-based",
        processing_time := (0 : ℚ) - 0 } :=
  other_supported_language_empty envNone 0 0 reqGo (by decide) (by decide) rfl rfl

/-- C6 counterexample: for the identity `"a.b"` a freshly generated key
(age 0, well under 24 hours) fails verification with a format error
because the dot inside the identity splits the key into four parts. -/
theorem api_key_dotted_identity_cex :
    (0 : Int) - 0 < 86400 ∧
    verify_api_key hmSig "s" (generate_api_key hmSig "s" "a.b" 0) 0 =
      VerifyResult.err "Invalid API key format" :=
  ⟨by decide, by decide⟩

/-- C6 (amended): for every identity containing no `"."` (and a dot-free
signature digest, as hex digests are), verifying a generated key
succeeds with the same identity when at most 24 hours elapsed — in
particular whenever less than 86400 seconds elapsed — and fails with the
expiry error whenever more than 86400 seconds elapsed. -/
theorem api_key_roundtrip (hm : String → String → String) (secret u : String)
    (t0 t1 : Int) (hu : ('.' : Char) ∉ u.data)
    (hs : ('.' : Char) ∉ (hm secret (u ++ ":" ++ intRepr t0)).data) :
    (t1 - t0 < 86400 →
      verify_api_key hm secret (generate_api_key hm secret u t0) t1 =
        VerifyResult.ok u (intRepr t0)) ∧
    (t1 - t0 > 86400 →
      verify_api_key hm secret (generate_api_key hm secret u t0) t1 =
        VerifyResult.err "API key expired") := by
  have hsplit : pySplit '.' (generate_api_key hm secret u t0) =
      [u, intRepr t0, hm secret (u ++ ":" ++ intRepr t0)] := by
    unfold generate_api_key
    exact pySplit_three u (intRepr t0) _ hu (dot_not_mem_intRepr t0) hs
  constructor <;> intro hcmp
  · unfold verify_api_key
    rw [hsplit]
    dsimp only []
    rw [if_pos rfl, pyInt?_intRepr]
    dsimp only []
    rw [if_neg (by omega)]
  · unfold verify_api_key
    rw [hsplit]
    dsimp only []
    rw [if_pos rfl, pyInt?_intRepr]
    dsimp only []
    rw [if_pos (by omega)]

/-- C6 (amended) witness: a young key for `alice` verifies back to
`alice`; a 25-hour-old key is rejected as expired. -/
theorem api_key_roundtrip_w :
    verify_api_key hmSig "s" (generate_api_key hmSig "s" "alice" 100) 200 =
      VerifyResult.ok "alice" (intRepr 100) ∧
    verify_api_key hmSig "s" (generate_api_key hmSig "s" "alice" 0) 90000 =
      VerifyResult.err "API key expired" :=
  ⟨(api_key_roundtrip hmSig "s" "alice" 100 200 (by decide) (by decide)).1
     (by decide),
   (api_key_roundtrip hmSig "s" "alice" 0 90000 (by decide) (by decide)).2
     (by decide)⟩

/-- C10: a well-formed key whose valid signature covers a timestamp in
the future (embedded time above the current time) is accepted and
returns the embedded identity: only ages strictly above 86400 seconds
are rejected, and a negative age never is. -/
theorem verify_accepts_future (hm : String → String → String) (secret u : String)
    (ts now : Int) (hu : ('.' : Char) ∉ u.data)
    (hs : ('.' : Char) ∉ (hm secret (u ++ ":" ++ intRepr ts)).data)
    (hfuture : now < ts) :
    verify_api_key hm secret
        (u ++ "." ++ intRepr ts ++ "." ++ hm secret (u ++ ":" ++ intRepr ts))
        now =
      VerifyResult.ok u (intRepr ts) := by
  have hsplit : pySplit '.'
      (u ++ "." ++ intRepr ts ++ "." ++ hm secret (u ++ ":" ++ intRepr ts)) =
      [u, intRepr ts, hm secret (u ++ ":" ++ intRepr ts)] :=
    pySplit_three u (intRepr ts) _ hu (dot_not_mem_intRepr ts) hs
  unfold verify_api_key
  rw [hsplit]
  dsimp only []
  rw [if_pos rfl, pyInt?_intRepr]
  dsimp only []
  rw [if_neg (by omega)]

/-- C10 witness: a key timestamped at 500 is accepted at time 0. -/
theorem verify_accepts_future_w :
    verify_api_key hmSig "s"
        ("alice" ++ "." ++ intRepr 500 ++ "." ++
          hmSig "s" ("alice" ++ ":" ++ intRepr 500)) 0 =
      VerifyResult.ok "alice" (intRepr 500) :=
  verify_accepts_future hmSig "s" "alice" 500 0 (by decide) (by decide) (by decide)

end CollabSpace
